import Mathlib

/-!
Verification of the "Multiple Results" notebook
(`python/notebooks/10-multiple-results-per-prompt.ipynb`).

The notebook's only algorithmic content is:
* a settings record passed to the SDK,
* labelled print loops over returned result sequences,
* a streaming redraw loop: an accumulator `texts` of
  `number_of_responses` strings, updated on every inbound chunk batch,
  with a screen clear-and-reprint throttled to at most once per
  `clear_interval = 0.5` seconds.

We embed those pieces as pure functions: time is modelled by rationals
(`time.time()` values), the display by a trace of output events, and the
stream by the finite list of (arrival time, chunk batch) pairs it yields.
-/

namespace MultipleResults

/-- Observable display events of a notebook cell: `clear_output()` and a
`print(line)`. -/
inductive OutputEvent where
  | clear : OutputEvent
  | print (line : String) : OutputEvent
deriving DecidableEq, Repr

/-- The redraw throttle of the streaming cell: `clear_interval = 0.5` seconds. -/
def clear_interval : ℚ := 1 / 2

/-- The update step of the streaming loop, with `idx` the enumeration
counter:
`for idx, result in enumerate(results): if idx < number_of_responses: texts[idx] += result`.
Out-of-range `List.set`/`List.getD` are no-ops; `updateTextsCheckedAux`
below models Python's `IndexError` explicitly. -/
def updateTextsAux (n : Nat) (idx : Nat) (texts : List String) : List String → List String
  | [] => texts
  | r :: rs =>
      updateTextsAux n (idx + 1)
        (if idx < n then texts.set idx (texts.getD idx "" ++ r) else texts) rs

/-- The whole `for idx, result in enumerate(results)` update pass, starting
the enumeration at 0. -/
def updateTexts (n : Nat) (texts results : List String) : List String :=
  updateTextsAux n 0 texts results

/-- The same update pass with Python's indexing semantics made explicit:
`texts[idx] += result` raises `IndexError` (here: `none`) when
`idx ≥ len(texts)`; the `idx < number_of_responses` guard is supposed to
prevent that. -/
def updateTextsCheckedAux (n : Nat) (idx : Nat) (texts : List String) :
    List String → Option (List String)
  | [] => some texts
  | r :: rs =>
      if idx < n then
        match texts[idx]? with
        | some t => updateTextsCheckedAux n (idx + 1) (texts.set idx (t ++ r)) rs
        | none => none
      else updateTextsCheckedAux n (idx + 1) texts rs

/-- Checked variant of `updateTexts`. -/
def updateTextsChecked (n : Nat) (texts results : List String) : Option (List String) :=
  updateTextsCheckedAux n 0 texts results

/-- The labelled print loop pattern of the completion cells:
`i = k` then `for result in results: print(f"Result {i}: {result}"); i += 1`. -/
def printResultsFrom (i : Nat) : List String → List String
  | [] => []
  | r :: rs => ("Result " ++ toString i ++ ": " ++ r) :: printResultsFrom (i + 1) rs

/-- The OpenAI / Azure text-completion cells: the counter starts at `i = 1`
and each whole `result` is printed. -/
def textCompletionPrints (results : List String) : List String :=
  printResultsFrom 1 results

/-- The chat-completion cells: the counter starts at `i = 0` and only
`result[0]` is printed; `result[0]` raises `IndexError` (here: `none`) on an
empty result. -/
def chatPrintsFrom (i : Nat) : List (List String) → Option (List String)
  | [] => some []
  | c :: cs =>
      match c.head? with
      | some h =>
          (chatPrintsFrom (i + 1) cs).map
            (fun rest => ("Result " ++ toString i ++ ": " ++ h) :: rest)
      | none => none

/-- The OpenAI / Azure chat-completion print loops (`i = 0`,
`print(f"Result {i}: {result[0]}")`). -/
def chatCompletionPrints (results : List (List String)) : Option (List String) :=
  chatPrintsFrom 0 results

/-- The redraw body of the streaming cell:
`for idx, text in enumerate(texts): print(f"Result {idx + 1}: {text}")`. -/
def printTexts (texts : List String) : List OutputEvent :=
  (printResultsFrom 1 texts).map OutputEvent.print

/-- State of the streaming cell: the accumulator `texts`, the throttle
timestamp `last_clear_time`, the display trace emitted so far, and (ghost
instrumentation for the temporal claims) the arrival times at which
`clear_output` ran. -/
structure StreamState where
  texts : List String
  last_clear_time : ℚ
  output : List OutputEvent
  clearTimes : List ℚ
deriving DecidableEq, Repr

/-- One iteration of `async for results in stream`: update `texts`, then
clear-and-reprint only when `current_time - last_clear_time > clear_interval`. -/
def processBatch (n : Nat) (st : StreamState) (current_time : ℚ)
    (results : List String) : StreamState :=
  let texts := updateTexts n st.texts results
  if current_time - st.last_clear_time > clear_interval then
    { texts := texts
      last_clear_time := current_time
      output := st.output ++ OutputEvent.clear :: printTexts texts
      clearTimes := st.clearTimes ++ [current_time] }
  else
    { st with texts := texts }

/-- State before the loop: `texts = [""] * number_of_responses`,
`last_clear_time = time.time()` (the value `t0`), nothing displayed yet. -/
def initState (n : Nat) (t0 : ℚ) : StreamState :=
  { texts := List.replicate n ""
    last_clear_time := t0
    output := []
    clearTimes := [] }

/-- The whole streaming loop over a finite stream of
(arrival time, chunk batch) pairs. -/
def runStream (n : Nat) (t0 : ℚ) (batches : List (ℚ × List String)) : StreamState :=
  batches.foldl (fun st b => processBatch n st b.1 b.2) (initState n t0)

/-- The `print("----------------------------------------")` after the loop. -/
def separatorLine : String := "----------------------------------------"

/-- The display trace of the whole streaming cell: the loop's trace followed
by the dashed separator line. -/
def streamingCellOutput (n : Nat) (t0 : ℚ) (batches : List (ℚ × List String)) :
    List OutputEvent :=
  (runStream n t0 batches).output ++ [OutputEvent.print separatorLine]

/-- Concatenation of a list of strings in order. -/
def concatStrings : List String → String
  | [] => ""
  | s :: ss => s ++ concatStrings ss

/-- A text-completion cell as a fallible computation: `await ...complete_async`
either raises (the notebook has no `try`/`except`, so the error propagates)
or returns results which are fed to the print loop. -/
def textCompletionCell (ε : Type) (call : Except ε (List String)) :
    Except ε (List String) :=
  call.map textCompletionPrints

/-- Exceptions a notebook cell can raise: the SDK error it propagates
(the notebook has no `try`/`except`), or the `IndexError` that `result[0]`
raises on an empty result inside the chat cells' print loop. -/
inductive CellError (ε : Type) where
  | sdk (e : ε) : CellError ε
  | indexError : CellError ε

/-- A chat-completion cell as a fallible computation (both the OpenAI and the
Azure chat cells have this shape): the awaited SDK call either raises — and
the error propagates unchanged — or returns results fed to the print loop,
where `result[0]` itself raises `IndexError` on an empty result. -/
def chatCompletionCell (ε : Type) (call : Except ε (List (List String))) :
    Except (CellError ε) (List String) :=
  match call with
  | Except.error e => Except.error (CellError.sdk e)
  | Except.ok rs =>
      match chatCompletionPrints rs with
      | some lines => Except.ok lines
      | none => Except.error CellError.indexError

/-- The streaming cell as a fallible computation over the stream it consumes. -/
def streamingCell (ε : Type) (n : Nat) (t0 : ℚ)
    (call : Except ε (List (ℚ × List String))) : Except ε (List OutputEvent) :=
  call.map (streamingCellOutput n t0)

/-- Modelled from the spec: the class `OpenAITextRequestSettings` belongs to
the semantic-kernel package and is not under `src/`; per the spec the
request-settings record has "parameters: max tokens, temperature, top-p,
frequency/presence penalty, number-of-responses" and "the settings object
stores the given keyword values", here the values of the `extension_data`
dictionary the notebook passes. -/
structure OpenAITextRequestSettings where
  max_tokens : Nat
  temperature : ℚ
  top_p : ℚ
  frequency_penalty : ℚ
  presence_penalty : ℚ
  number_of_responses : Nat
deriving DecidableEq, Repr

/-- The notebook's `oai_text_request_settings` cell: extension data
`{"max_tokens": 80, "temperature": 0.7, "top_p": 1, "frequency_penalty": 0.5,
"presence_penalty": 0.5, "number_of_responses": 3}`. -/
def oai_text_request_settings : OpenAITextRequestSettings :=
  { max_tokens := 80
    temperature := 7 / 10
    top_p := 1
    frequency_penalty := 1 / 2
    presence_penalty := 1 / 2
    number_of_responses := 3 }

/-! ### Helper lemmas -/

theorem updateTextsAux_length (n idx : Nat) (ts rs : List String) :
    (updateTextsAux n idx ts rs).length = ts.length := by
  induction rs generalizing idx ts with
  | nil => rfl
  | cons r rs ih =>
      rw [updateTextsAux, ih]
      split <;> simp

theorem updateTexts_length (n : Nat) (ts rs : List String) :
    (updateTexts n ts rs).length = ts.length :=
  updateTextsAux_length n 0 ts rs

theorem processBatch_texts (n : Nat) (st : StreamState) (t : ℚ) (rs : List String) :
    (processBatch n st t rs).texts = updateTexts n st.texts rs := by
  unfold processBatch
  split <;> rfl

theorem foldl_texts_length (n : Nat) (bs : List (ℚ × List String)) (st : StreamState) :
    (bs.foldl (fun st b => processBatch n st b.1 b.2) st).texts.length = st.texts.length := by
  induction bs generalizing st with
  | nil => rfl
  | cons b bs ih => rw [List.foldl_cons, ih, processBatch_texts, updateTexts_length]

theorem updateTextsAux_getElem_lt (n idx : Nat) (ts rs : List String) (i : Nat)
    (hi : i < idx) :
    (updateTextsAux n idx ts rs)[i]? = ts[i]? := by
  induction rs generalizing idx ts with
  | nil => rfl
  | cons r rs ih =>
      rw [updateTextsAux, ih _ _ (by omega)]
      split
      · exact List.getElem?_set_ne (by omega)
      · rfl

theorem updateTextsAux_getElem (n idx : Nat) (ts rs : List String) (i : Nat)
    (h1 : idx ≤ i) (h2 : i < n) :
    (updateTextsAux n idx ts rs)[i]?
      = (ts[i]?).map (fun t => t ++ ((rs[i - idx]?).getD "")) := by
  induction rs generalizing idx ts with
  | nil =>
      rw [updateTextsAux]
      cases ts[i]? <;> simp [String.append_empty]
  | cons r rs ih =>
      rw [updateTextsAux, if_pos (lt_of_le_of_lt h1 h2)]
      rcases eq_or_lt_of_le h1 with heq | hlt
      · subst heq
        rw [updateTextsAux_getElem_lt n (idx + 1) _ rs idx (by omega)]
        cases h : ts[idx]? with
        | none =>
            have hlen : ts.length ≤ idx := by
              by_contra hc
              push_neg at hc
              rw [List.getElem?_eq_getElem hc] at h
              exact Option.noConfusion h
            simp [List.set_eq_of_length_le hlen, h]
        | some t =>
            have hlen : idx < ts.length := by
              by_contra hc
              push_neg at hc
              rw [List.getElem?_eq_none hc] at h
              exact Option.noConfusion h
            have hgetD : ts.getD idx "" = t := by
              simp [List.getD_eq_getElem?_getD, h]
            rw [hgetD]
            simp [List.getElem?_set_self hlen, h]
      · rw [ih (idx + 1) _ (by omega), List.getElem?_set_ne (by omega)]
        have harith : i - idx = (i - (idx + 1)) + 1 := by omega
        rw [harith]
        simp [List.getElem?_cons_succ]

theorem updateTexts_getElem (n : Nat) (ts rs : List String) (i : Nat) (h : i < n) :
    (updateTexts n ts rs)[i]? = (ts[i]?).map (fun t => t ++ ((rs[i]?).getD "")) := by
  simpa using updateTextsAux_getElem n 0 ts rs i (Nat.zero_le i) h

theorem foldl_texts_getElem (n i : Nat) (h : i < n) (bs : List (ℚ × List String))
    (st : StreamState) (t : String) (hst : st.texts[i]? = some t) :
    ((bs.foldl (fun st b => processBatch n st b.1 b.2) st).texts)[i]?
      = some (t ++ concatStrings ((bs.map Prod.snd).filterMap (fun rs => rs[i]?))) := by
  induction bs generalizing st t with
  | nil => simp [concatStrings, String.append_empty, hst]
  | cons b bs ih =>
      rw [List.foldl_cons]
      have hup : (processBatch n st b.1 b.2).texts[i]? = some (t ++ ((b.2[i]?).getD "")) := by
        rw [processBatch_texts, updateTexts_getElem n _ _ i h, hst]
        rfl
      rw [ih _ _ hup]
      cases hb : b.2[i]? with
      | none =>
          simp only [List.map_cons, List.filterMap_cons, hb, Option.getD_none,
            String.append_empty]
      | some c =>
          simp only [List.map_cons, List.filterMap_cons, hb, Option.getD_some,
            concatStrings, String.append_assoc]

/-! ### The claims -/

/-- C1: on each chunk batch, the screen is cleared and all accumulated
strings reprinted exactly when strictly more than `clear_interval = 0.5`
seconds have elapsed since the last clear; otherwise the batch produces no
output and `last_clear_time` is unchanged. -/
theorem redraw_iff_elapsed (n : Nat) (st : StreamState) (current_time : ℚ)
    (results : List String) :
    (processBatch n st current_time results).output
        = st.output ++
          (if current_time - st.last_clear_time > clear_interval
            then OutputEvent.clear :: printTexts (updateTexts n st.texts results)
            else [])
    ∧ (processBatch n st current_time results).last_clear_time
        = (if current_time - st.last_clear_time > clear_interval
            then current_time
            else st.last_clear_time) := by
  unfold processBatch
  split <;> simp

/-- C3: `texts` starts as `number_of_responses` empty strings and every
point of the streaming loop keeps its length equal to
`number_of_responses`. -/
theorem texts_length_invariant (n : Nat) (t0 : ℚ) (batches : List (ℚ × List String)) :
    (runStream n t0 []).texts = List.replicate n ""
    ∧ ∀ k : Nat, ((runStream n t0 (batches.take k)).texts).length = n := by
  constructor
  · rfl
  · intro k
    rw [runStream, foldl_texts_length]
    simp [initState]

/-- C2: after the streaming loop terminates, slot `i < number_of_responses`
holds the concatenation, in arrival order, of the `i`-th chunk of every
batch that contained more than `i` chunks (the batches with at most `i`
chunks contribute nothing, `rs[i]? = none`). -/
theorem streaming_texts_concat (n : Nat) (t0 : ℚ) (batches : List (ℚ × List String))
    (i : Nat) (h : i < n) :
    ((runStream n t0 batches).texts)[i]?
      = some (concatStrings ((batches.map Prod.snd).filterMap (fun rs => rs[i]?))) := by
  have h0 : (initState n t0).texts[i]? = some "" := by
    simp [initState, List.getElem?_replicate, h]
  rw [runStream, foldl_texts_getElem n i h batches _ "" h0, String.empty_append]

/-- Witness for C2 at `n = 1`, batches `[(1, ["a"]), (2, ["b"])]`, `i = 0`:
slot 0 ends as `"ab"`. -/
theorem streaming_texts_concat_witness :
    0 < 1 ∧ ((runStream 1 0 [(1, ["a"]), (2, ["b"])]).texts)[0]? = some "ab" :=
  ⟨Nat.zero_lt_one,
    (streaming_texts_concat 1 0 [(1, ["a"]), (2, ["b"])] 0 Nat.zero_lt_one).trans
      (by decide)⟩

theorem updateTextsAux_ident (n idx : Nat) (h : n ≤ idx) (ts rs : List String) :
    updateTextsAux n idx ts rs = ts := by
  induction rs generalizing idx ts with
  | nil => rfl
  | cons r rs ih => rw [updateTextsAux, if_neg (by omega), ih (idx + 1) (by omega)]

theorem updateTextsAux_take (n idx : Nat) (ts rs : List String) :
    updateTextsAux n idx ts rs = updateTextsAux n idx ts (rs.take (n - idx)) := by
  induction rs generalizing idx ts with
  | nil => rw [List.take_nil]
  | cons r rs ih =>
      by_cases hidx : idx < n
      · have harith : n - idx = (n - (idx + 1)) + 1 := by omega
        rw [harith, List.take_succ_cons, updateTextsAux, updateTextsAux, ih (idx + 1)]
      · have harith : n - idx = 0 := by omega
        rw [harith, List.take_zero]
        simp only [updateTextsAux, if_neg hidx]
        exact updateTextsAux_ident n (idx + 1) (by omega) ts rs

theorem updateTextsCheckedAux_eq (n idx : Nat) (ts rs : List String)
    (h : ts.length = n) :
    updateTextsCheckedAux n idx ts rs = some (updateTextsAux n idx ts rs) := by
  induction rs generalizing idx ts with
  | nil => rfl
  | cons r rs ih =>
      rw [updateTextsCheckedAux, updateTextsAux]
      by_cases hidx : idx < n
      · rw [if_pos hidx, if_pos hidx]
        have hlt : idx < ts.length := by omega
        rw [List.getElem?_eq_getElem hlt]
        have hgetD : ts.getD idx "" = ts[idx] := by
          simp [List.getD_eq_getElem?_getD, List.getElem?_eq_getElem hlt]
        rw [hgetD]
        exact ih (idx + 1) (ts.set idx (ts[idx] ++ r)) (by simp [h])
      · rw [if_neg hidx, if_neg hidx]
        exact ih (idx + 1) ts h

/-- C9: under the loop invariant `len(texts) = number_of_responses`, the
update step never raises `IndexError` (the checked semantics returns a
value), and chunks at positions `≥ number_of_responses` are silently
discarded (the batch acts like its first `number_of_responses` chunks). -/
theorem update_discards_and_safe (n : Nat) (ts rs : List String)
    (h : ts.length = n) :
    updateTextsChecked n ts rs = some (updateTexts n ts rs)
    ∧ updateTexts n ts rs = updateTexts n ts (rs.take n) := by
  refine ⟨updateTextsCheckedAux_eq n 0 ts rs h, ?_⟩
  have htake := updateTextsAux_take n 0 ts rs
  simpa [updateTexts] using htake

/-- Witness for C9 at `n = 1`, `texts = ["x"]`, batch `["a", "b"]`: the
checked update succeeds and the second chunk is discarded. -/
theorem update_discards_and_safe_witness :
    (["x"] : List String).length = 1
    ∧ (updateTextsChecked 1 ["x"] ["a", "b"] = some (updateTexts 1 ["x"] ["a", "b"])
        ∧ updateTexts 1 ["x"] ["a", "b"] = updateTexts 1 ["x"] (["a", "b"].take 1)) :=
  ⟨rfl, update_discards_and_safe 1 ["x"] ["a", "b"] rfl⟩

theorem printResultsFrom_getElem (i : Nat) (rs : List String) (j : Nat) :
    (printResultsFrom i rs)[j]?
      = (rs[j]?).map (fun r => "Result " ++ toString (i + j) ++ ": " ++ r) := by
  induction rs generalizing i j with
  | nil => simp [printResultsFrom]
  | cons r rs ih =>
      cases j with
      | zero => simp [printResultsFrom]
      | succ j =>
          have harith : i + 1 + j = i + (j + 1) := by omega
          simp only [printResultsFrom, List.getElem?_cons_succ, ih (i + 1) j, harith]

theorem chatPrintsFrom_eq (i : Nat) (cs : List (List String))
    (h : ∀ c ∈ cs, c ≠ []) :
    chatPrintsFrom i cs = some (printResultsFrom i (cs.map (fun c => c.headD ""))) := by
  induction cs generalizing i with
  | nil => rfl
  | cons c cs ih =>
      have hc : c ≠ [] := h c (List.mem_cons_self c cs)
      cases c with
      | nil => exact absurd rfl hc
      | cons a tl =>
          simp only [chatPrintsFrom, List.head?_cons, List.map_cons, List.headD_cons,
            printResultsFrom, ih (i + 1) (fun c hcc => h c (List.mem_cons_of_mem _ hcc))]
          rfl

/-- C10: the text-completion cells label the `j`-th printed result
`Result (j + 1)` and show the whole result, while the chat-completion cells
label it `Result j` and show only `result[0]`: the labelling bases differ by
one. -/
theorem result_label_bases (results : List String) (chats : List (List String))
    (j : Nat) (h : ∀ c ∈ chats, c ≠ []) :
    (textCompletionPrints results)[j]?
        = (results[j]?).map (fun r => "Result " ++ toString (j + 1) ++ ": " ++ r)
    ∧ ∃ lines, chatCompletionPrints chats = some lines
        ∧ lines[j]? = (chats[j]?).map
            (fun c => "Result " ++ toString j ++ ": " ++ c.headD "") := by
  constructor
  · rw [textCompletionPrints, printResultsFrom_getElem, Nat.add_comm 1 j]
  · refine ⟨_, chatPrintsFrom_eq 0 chats h, ?_⟩
    rw [printResultsFrom_getElem, List.getElem?_map, Nat.zero_add]
    cases chats[j]? <;> rfl

/-- Witness for C10 at `results = ["x", "y"]`, `chats = [["a", "b"], ["c"]]`,
`j = 0`. -/
theorem result_label_bases_witness :
    (∀ c ∈ ([["a", "b"], ["c"]] : List (List String)), c ≠ [])
    ∧ ((textCompletionPrints ["x", "y"])[0]?
          = ((["x", "y"] : List String)[0]?).map
              (fun r => "Result " ++ toString (0 + 1) ++ ": " ++ r)
        ∧ ∃ lines, chatCompletionPrints [["a", "b"], ["c"]] = some lines
            ∧ lines[0]? = (([["a", "b"], ["c"]] : List (List String))[0]?).map
                (fun c => "Result " ++ toString 0 ++ ": " ++ c.headD "")) :=
  ⟨by decide, result_label_bases ["x", "y"] [["a", "b"], ["c"]] 0 (by decide)⟩

/-- C6: the request-settings object stores exactly the given keyword values;
in particular `number_of_responses` reads back as 3, the value the streaming
cell uses. -/
theorem settings_store_values :
    oai_text_request_settings.number_of_responses = 3
    ∧ oai_text_request_settings.max_tokens = 80
    ∧ oai_text_request_settings.temperature = 7 / 10
    ∧ oai_text_request_settings.top_p = 1
    ∧ oai_text_request_settings.frequency_penalty = 1 / 2
    ∧ oai_text_request_settings.presence_penalty = 1 / 2 :=
  ⟨rfl, rfl, rfl, rfl, rfl, rfl⟩

/-- C7 counterexample: on the successful SDK response `[["a"], []]` the chat
cell itself raises `IndexError` — `result[0]` on the empty second result —
so "a cell raises an exception iff the underlying SDK call raises one" is
false as stated. -/
theorem chat_cell_raises_without_sdk_error :
    ¬ ((∃ ce, chatCompletionCell String (Except.ok [["a"], []]) = Except.error ce)
        ↔ (∃ e, (Except.ok [["a"], []] : Except String (List (List String)))
              = Except.error e)) := by
  intro h
  obtain ⟨e, he⟩ := h.mp ⟨CellError.indexError, rfl⟩
  exact Except.noConfusion he

/-- C7 amended: no cell catches exceptions, and every SDK error propagates
unchanged out of its cell. For the text-completion and streaming cells an
exception is raised exactly when the SDK call raises it; a chat cell raises
the SDK error exactly when the SDK call raises it, but can additionally
raise an `IndexError` of its own, exactly when the SDK call succeeds with
some empty result. -/
theorem cells_propagate_errors (ε : Type) (e : ε) (r1 : Except ε (List String))
    (r2 : Except ε (List (List String))) (r3 : Except ε (List (ℚ × List String)))
    (n : Nat) (t0 : ℚ) :
    (textCompletionCell ε r1 = Except.error e ↔ r1 = Except.error e)
    ∧ (streamingCell ε n t0 r3 = Except.error e ↔ r3 = Except.error e)
    ∧ (chatCompletionCell ε r2 = Except.error (CellError.sdk e)
        ↔ r2 = Except.error e)
    ∧ (chatCompletionCell ε r2 = Except.error CellError.indexError
        ↔ ∃ rs, r2 = Except.ok rs ∧ chatCompletionPrints rs = none) := by
  refine ⟨?_, ?_, ?_, ?_⟩
  · cases r1 <;> simp [textCompletionCell, Except.map]
  · cases r3 <;> simp [streamingCell, Except.map]
  · cases r2 with
    | error a => simp [chatCompletionCell, CellError.sdk.injEq]
    | ok rs => cases hp : chatCompletionPrints rs <;> simp [chatCompletionCell, hp]
  · cases r2 with
    | error a => simp [chatCompletionCell]
    | ok rs => cases hp : chatCompletionPrints rs <;> simp [chatCompletionCell, hp]

/-- C8: a stream whose final batches arrive at most 0.5 seconds after the
last clear ends without a final redraw: with batches at times 1 and 6/5, the
loop's display trace stops at the first batch, the text `"ab"` accumulated
since that clear is never printed, and the only output after the loop is the
dashed separator line. -/
theorem final_chunks_never_displayed :
    streamingCellOutput 1 0 [(1, ["a"]), (6 / 5, ["b"])]
        = [OutputEvent.clear, OutputEvent.print "Result 1: a",
            OutputEvent.print separatorLine]
    ∧ (runStream 1 0 [(1, ["a"]), (6 / 5, ["b"])]).texts = ["ab"]
    ∧ (runStream 1 0 [(1, ["a"]), (6 / 5, ["b"])]).output
        = (runStream 1 0 [(1, ["a"])]).output := by
  refine ⟨?_, ?_, ?_⟩ <;>
    · norm_num [streamingCellOutput, runStream, processBatch, initState, updateTexts,
        updateTextsAux, printTexts, printResultsFrom, clear_interval, separatorLine]
      try decide

theorem processBatch_clearTimes (n : Nat) (st : StreamState) (t : ℚ) (rs : List String) :
    (processBatch n st t rs).clearTimes
      = if t - st.last_clear_time > clear_interval
          then st.clearTimes ++ [t] else st.clearTimes := by
  unfold processBatch
  split <;> rfl

theorem processBatch_last_clear (n : Nat) (st : StreamState) (t : ℚ) (rs : List String) :
    (processBatch n st t rs).last_clear_time
      = if t - st.last_clear_time > clear_interval
          then t else st.last_clear_time := by
  unfold processBatch
  split <;> rfl

/-- The value of `last_clear_time`: the initial `time.time()` value if no
clear happened yet, otherwise the time of the latest clear. -/
def lastOr (t0 : ℚ) (l : List ℚ) : ℚ :=
  l.foldl (fun _ x => x) t0

theorem lastOr_append (t0 : ℚ) (l : List ℚ) (t : ℚ) :
    lastOr t0 (l ++ [t]) = t := by
  simp [lastOr, List.foldl_append]

theorem chain_snoc (r : ℚ → ℚ → Prop) (a b : ℚ) (l : List ℚ)
    (h : List.Chain r a l) (hb : r (lastOr a l) b) : List.Chain r a (l ++ [b]) := by
  induction l generalizing a with
  | nil => exact List.Chain.cons hb List.Chain.nil
  | cons x l ih =>
      cases h with
      | cons hax hxl => exact List.Chain.cons hax (ih x hxl hb)

theorem foldl_clearTimes_chain (n : Nat) (bs : List (ℚ × List String))
    (st : StreamState) (t0 : ℚ)
    (hch : List.Chain (fun a b => clear_interval < b - a) t0 st.clearTimes)
    (hlast : st.last_clear_time = lastOr t0 st.clearTimes) :
    List.Chain (fun a b => clear_interval < b - a) t0
      ((bs.foldl (fun st b => processBatch n st b.1 b.2) st).clearTimes) := by
  induction bs generalizing st with
  | nil => exact hch
  | cons b bs ih =>
      rw [List.foldl_cons]
      by_cases hcond : b.1 - st.last_clear_time > clear_interval
      · refine ih (processBatch n st b.1 b.2) ?_ ?_
        · rw [processBatch_clearTimes, if_pos hcond]
          exact chain_snoc _ t0 b.1 st.clearTimes hch (by rw [← hlast]; exact hcond)
        · rw [processBatch_clearTimes, if_pos hcond, processBatch_last_clear,
            if_pos hcond, lastOr_append]
      · refine ih (processBatch n st b.1 b.2) ?_ ?_
        · rw [processBatch_clearTimes, if_neg hcond]
          exact hch
        · rw [processBatch_clearTimes, if_neg hcond, processBatch_last_clear,
            if_neg hcond]
          exact hlast

theorem foldl_clearTimes_sublist (n : Nat) (bs : List (ℚ × List String))
    (st : StreamState) :
    ((bs.foldl (fun st b => processBatch n st b.1 b.2) st).clearTimes).Sublist
      (st.clearTimes ++ bs.map Prod.fst) := by
  induction bs generalizing st with
  | nil => simp
  | cons b bs ih =>
      rw [List.foldl_cons, List.map_cons]
      have h := ih (processBatch n st b.1 b.2)
      rw [processBatch_clearTimes] at h
      split at h
      · simpa [List.append_assoc] using h
      · exact h.trans
          ((List.sublist_cons_self b.1 (bs.map Prod.fst)).append_left st.clearTimes)

/-- C4 counterexample: the code does not redraw every 0.5 seconds. With the
stream started at time 0 and batches arriving at times 10 and 20, the only
clears happen at 10 and 20, so the point 11 of the consumption — with far
more than 0.5 seconds of consumption left — has no clear-and-reprint within
0.5 seconds of it. -/
theorem redraw_period_counterexample :
    ¬ (∀ p : ℚ, 0 ≤ p → p + 1 / 2 ≤ 20 →
        ∃ c, c ∈ (runStream 1 0 [(10, ["a"]), (20, ["b"])]).clearTimes
          ∧ c - p ≤ 1 / 2 ∧ p - c ≤ 1 / 2) := by
  intro hcl
  obtain ⟨c, hc, h1, h2⟩ := hcl 11 (by norm_num) (by norm_num)
  have hct : (runStream 1 0 [(10, ["a"]), (20, ["b"])]).clearTimes = [10, 20] := by
    norm_num [runStream, processBatch, initState, updateTexts, updateTextsAux,
      printTexts, printResultsFrom, clear_interval]
  rw [hct] at hc
  have hc' : c = 10 ∨ c = 20 := by simpa using hc
  rcases hc' with rfl | rfl
  · norm_num at h2
  · norm_num at h1

/-- C4 amended: the 0.5-second interval is a throttle, not a period: every
clear-and-reprint happens at the arrival time of some chunk batch, and
successive clears (counting the start of the loop) are strictly more than
0.5 seconds apart; no redraw is guaranteed within 0.5 seconds of every
point of the consumption. -/
theorem clear_throttle_spacing (n : Nat) (t0 : ℚ)
    (batches : List (ℚ × List String)) :
    List.Chain (fun a b => clear_interval < b - a) t0
        (runStream n t0 batches).clearTimes
    ∧ ((runStream n t0 batches).clearTimes).Sublist (batches.map Prod.fst) := by
  constructor
  · exact foldl_clearTimes_chain n batches (initState n t0) t0 List.Chain.nil rfl
  · have h := foldl_clearTimes_sublist n batches (initState n t0)
    simpa [initState] using h

end MultipleResults
